import Mathlib

/-!
Verification of the desk-assignment planning core (instance loading and
validation, derived-index precomputation, isolation analytics and report
assembly).  Python dictionaries are embedded as association lists with unique
keys (a Python dict cannot repeat a key), Python sets of strings as
`Finset String`, and fallible code as `Option`/`Except` values.
-/

namespace Entrega

/-- Association-list lookup; models Python `dict.get(k)` over a dict with
unique keys (`none` models a missing key). -/
def alookup {α : Type} : List (String × α) → String → Option α
  | [], _ => none
  | p :: ps, k => if p.1 = k then some p.2 else alookup ps k

/-- Instance Model: the `ProblemInstance` dataclass of `read_instances.py`
(the two derived reverse indices are embedded as standalone functions below,
matching `build_reverse_indices`, which computes them from these fields). -/
structure ProblemInstance where
  employees : List String
  desks : List String
  days : List String
  groups : List String
  zones : List String
  desks_by_zone : List (String × List String)
  desks_by_employee : List (String × List String)
  employees_by_group : List (String × List String)
  days_by_employee : List (String × List String)

/-! ### Derived-index engine (`precalculos.py`, `compute_precalcs`) -/

/-- Embeds `compat[e] = set(desks_by_employee.get(e, []))` (the loader defaults
a missing employee key to an empty compatibility list). -/
def compat (inst : ProblemInstance) (e : String) : Finset String :=
  ((alookup inst.desks_by_employee e).getD []).toFinset

/-- Embeds `desks_in_zone.get(z, set())`: the defaulting form used by the
`compat_in_zone` loop of `compute_precalcs`. -/
def desksInZoneD (inst : ProblemInstance) (z : String) : Finset String :=
  ((alookup inst.desks_by_zone z).getD []).toFinset

/-- Entry `compat_in_zone[e][z] = len(compat.get(e, set()) & desks_in_zone.get(z, set()))`. -/
def compat_in_zone (inst : ProblemInstance) (e z : String) : Nat :=
  (compat inst e ∩ desksInZoneD inst z).card

/-- Embeds `group_size = {g: len(es) for g, es in employees_of_group.items()}`. -/
def group_size (inst : ProblemInstance) : List (String × Nat) :=
  inst.employees_by_group.map (fun p => (p.1, p.2.length))

/-- Embeds `avail.get(e, set())`, the availability set of one employee. -/
def availOf (inst : ProblemInstance) (e : String) : List String :=
  (alookup inst.days_by_employee e).getD []

/-- Final value of the `avail_gd[g][d] += 1` accumulation of `compute_precalcs`:
the number of listed members of `g` whose availability contains `d`.  (The
imperative loop reaches exactly this value whenever it does not raise, i.e.
when every group key is declared in `groups` and every availability day is
declared in `days`.) -/
def avail_gd_val (inst : ProblemInstance) (g d : String) : Nat :=
  ((alookup inst.employees_by_group g).getD []).countP
    (fun e => decide (d ∈ availOf inst e))

/-- Embeds the dense table `avail_gd = {g: {d: 0 for d in inst.days} for g in inst.groups}`
after the accumulation loop has run. -/
def avail_gd (inst : ProblemInstance) : List (String × List (String × Nat)) :=
  inst.groups.map (fun g => (g, inst.days.map (fun d => (d, avail_gd_val inst g d))))

/-- Embeds `common_days_group`: initialised as `{g: [] for g in inst.groups}`,
then for each `g` that is a key of `employees_of_group` the loop appends every
`d` of `inst.days` with `avail_gd.get(g, {}).get(d, 0) == group_size[g]`
(`group_size[g]` is present for every such `g`; `getD 0` models the dict
indexing that cannot miss there). -/
def common_days_group (inst : ProblemInstance) : List (String × List String) :=
  inst.groups.map (fun g => (g,
    if (alookup inst.employees_by_group g).isSome then
      inst.days.filter (fun d =>
        (alookup ((alookup (avail_gd inst) g).getD []) d).getD 0
          == (alookup (group_size inst) g).getD 0)
    else []))

/-- Embeds `union_compat = set().union(*(compat.get(e, set()) for e in es))`. -/
def unionCompat (inst : ProblemInstance) (es : List String) : Finset String :=
  es.foldr (fun e s => compat inst e ∪ s) ∅

/-- Value stored in `compat_union_gz[g][z]`:
`len(union_compat & desks_in_zone[z])` (meaningful when `z` is a key of
`desks_by_zone`; the strict indexing itself is modelled in `compat_union_gz`). -/
def compat_union_val (inst : ProblemInstance) (es : List String) (z : String) : Nat :=
  (unionCompat inst es ∩ desksInZoneD inst z).card

/-- Option-monad `mapM`, used to model loops whose body can raise `KeyError`. -/
def mapMo {α β : Type} (f : α → Option β) : List α → Option (List β)
  | [] => some []
  | a :: l =>
    match f a, mapMo f l with
    | some b, some bs => some (b :: bs)
    | _, _ => none

/-- Embeds the `compat_union_gz` construction of `compute_precalcs`.  The fill
loop runs `compat_union_gz[g][z] = len(union_compat & desks_in_zone[z])` for
every key `g` of `employees_of_group` and every `z` of `inst.zones`; it raises
`KeyError` (modelled by `none`) when `z` is not a key of `desks_by_zone`
(`desks_in_zone[z]`, evaluated first) or when `g` was not initialised
(`compat_union_gz[g]`, i.e. `g` not declared in `groups`).  On success the
table keeps one row per declared group: filled rows for groups that are keys
of `employees_of_group`, the initial empty dict for the others. -/
def compat_union_gz (inst : ProblemInstance) :
    Option (List (String × List (String × Nat))) :=
  match mapMo (fun ges => mapMo (fun z =>
      match alookup inst.desks_by_zone z with
      | none => none
      | some _ => if ges.1 ∈ inst.groups then some () else none)
    inst.zones) inst.employees_by_group with
  | none => none
  | some _ => some (inst.groups.map (fun g => (g,
      match alookup inst.employees_by_group g with
      | some es => inst.zones.map (fun z => (z, compat_union_val inst es z))
      | none => [])))

/-! ### Report assembler (`build_excel.py`, `build_outputs`) -/

/-- Predicate of the `Valid assignments` counter: the desk of the triple is not
the sentinel `"none"` and belongs to the employee's compatible-desk set. -/
def validTriple (inst : ProblemInstance) (t : String × String × String) : Prop :=
  t.2.2 ≠ "none" ∧ t.2.2 ∈ (alookup inst.desks_by_employee t.1).getD []

instance (inst : ProblemInstance) (t : String × String × String) :
    Decidable (validTriple inst t) := by
  unfold validTriple; infer_instance

/-- Embeds the `valid_assignments` accumulation loop of `build_outputs`
(`if desk != "none" and desk in desks_by_employee.get(e, set()): += 1`). -/
def valid_assignments (inst : ProblemInstance)
    (asg : List (String × String × String)) : Nat :=
  asg.foldl (fun n t => if validTriple inst t then n + 1 else n) 0

/-! ### General helper lemmas -/

theorem foldl_count {α : Type} (p : α → Prop) [DecidablePred p]
    (l : List α) (n : Nat) :
    l.foldl (fun n a => if p a then n + 1 else n) n
      = n + l.countP (fun a => decide (p a)) := by
  induction l generalizing n with
  | nil => simp
  | cons a l ih =>
    by_cases h : p a <;> simp [List.countP_cons, ih, h, Nat.add_assoc, Nat.add_comm]

theorem alookup_map_self {β : Type} (l : List String) (f : String → β) (k : String) :
    alookup (l.map (fun g => (g, f g))) k = if k ∈ l then some (f k) else none := by
  induction l with
  | nil => simp [alookup]
  | cons a l ih =>
    by_cases h : a = k
    · subst h; simp [alookup]
    · simp [alookup, h, ih, Ne.symm h]

theorem alookup_map_pair {α β : Type} (l : List (String × α)) (f : α → β) (k : String) :
    alookup (l.map (fun p => (p.1, f p.2))) k = (alookup l k).map f := by
  induction l with
  | nil => simp [alookup]
  | cons p l ih =>
    by_cases h : p.1 = k <;> simp [alookup, h, ih]

/-! ### C2 -/

/-- Concrete instance for C2: one declared group `G1` with an empty member
list, and one declared day `Mon`. -/
def instC2 : ProblemInstance :=
  ⟨[], [], ["Mon"], ["G1"], [], [], [], [("G1", [])], []⟩

/-- Counterexample to C2 as stated: for the zero-member group `G1` the code
yields `common_days_group["G1"] = ["Mon"]` (every declared day, since
`avail_gd["G1"][d] == group_size["G1"]` is `0 == 0`), not the empty list the
claim demands. -/
theorem C2_counterexample :
    alookup instC2.employees_by_group "G1" = some []
      ∧ alookup (common_days_group instC2) "G1" = some ["Mon"]
      ∧ alookup (common_days_group instC2) "G1" ≠ some [] := by
  decide

/-- C2 (amended): for every group `g` listed in `employees_by_group` with
member list `es` and declared in `groups`, `common_days_group[g]` is exactly
the days `d`, in the declared day order, where `avail_gd[g][d]` equals
`group_size[g] = es.length`; consequently for a zero-member group it is the
full declared day list (the guard is vacuously `0 == 0`), not the empty list. -/
theorem C2_common_days_group (inst : ProblemInstance) (g : String) (es : List String)
    (hmem : alookup inst.employees_by_group g = some es) (hg : g ∈ inst.groups) :
    alookup (common_days_group inst) g
        = some (inst.days.filter (fun d => avail_gd_val inst g d == es.length))
      ∧ (es = [] → alookup (common_days_group inst) g = some inst.days) := by
  have hsize : alookup (group_size inst) g = some es.length := by
    rw [group_size, alookup_map_pair, hmem]; rfl
  have hgd : alookup (avail_gd inst) g
      = some (inst.days.map (fun d => (d, avail_gd_val inst g d))) := by
    rw [avail_gd, alookup_map_self, if_pos hg]
  have hmain : alookup (common_days_group inst) g
      = some (inst.days.filter (fun d => avail_gd_val inst g d == es.length)) := by
    rw [common_days_group, alookup_map_self, if_pos hg, hmem]
    simp only [Option.isSome_some, if_true]
    congr 1
    apply List.filter_congr
    intro d hd
    rw [hgd, hsize]
    simp only [Option.getD_some]
    rw [alookup_map_self, if_pos hd]
    rfl
  refine ⟨hmain, fun hes => ?_⟩
  subst hes
  rw [hmain]
  congr 1
  apply List.filter_eq_self.mpr
  intro d _
  have hv : avail_gd_val inst g d = 0 := by
    rw [avail_gd_val, hmem]; rfl
  simp [hv]

/-- Witness for the amended C2 at the concrete zero-member instance: the
common-day list is the filtered day list, which here is the full day list. -/
theorem C2_common_days_group_witness :
    alookup (common_days_group instC2) "G1"
        = some (instC2.days.filter
            (fun d => avail_gd_val instC2 "G1" d == List.length ([] : List String)))
      ∧ alookup (common_days_group instC2) "G1" = some instC2.days :=
  ⟨(C2_common_days_group instC2 "G1" [] (by decide) (by decide)).1,
   (C2_common_days_group instC2 "G1" [] (by decide) (by decide)).2 rfl⟩

/-! ### C3 -/

theorem mem_foldr_union {α β : Type} [DecidableEq β] (f : α → Finset β)
    (es : List α) (x : β) :
    x ∈ es.foldr (fun e s => f e ∪ s) ∅ ↔ ∃ e ∈ es, x ∈ f e := by
  induction es with
  | nil => simp
  | cons a es ih => simp [ih]

theorem foldr_union_card {α β : Type} [DecidableEq β] (f : α → Finset β)
    (es : List α) :
    (es.foldr (fun e s => f e ∪ s) ∅).card ≤ (es.map (fun e => (f e).card)).sum
      ∧ ((es.foldr (fun e s => f e ∪ s) ∅).card = (es.map (fun e => (f e).card)).sum
          ↔ List.Pairwise (fun a b => f a ∩ f b = ∅) es) := by
  induction es with
  | nil => simp
  | cons a es ih =>
    have hsum := Finset.card_union_add_card_inter (f a) (es.foldr (fun e s => f e ∪ s) ∅)
    have hle := Finset.card_union_le (f a) (es.foldr (fun e s => f e ∪ s) ∅)
    have hinter : f a ∩ es.foldr (fun e s => f e ∪ s) ∅ = ∅
        ↔ ∀ b ∈ es, f a ∩ f b = ∅ := by
      constructor
      · intro h b hb
        apply Finset.eq_empty_iff_forall_not_mem.mpr
        intro x hx
        rcases Finset.mem_inter.mp hx with ⟨hx1, hx2⟩
        exact Finset.eq_empty_iff_forall_not_mem.mp h x
          (Finset.mem_inter.mpr ⟨hx1, (mem_foldr_union f es x).mpr ⟨b, hb, hx2⟩⟩)
      · intro h
        apply Finset.eq_empty_iff_forall_not_mem.mpr
        intro x hx
        rcases Finset.mem_inter.mp hx with ⟨hx1, hx2⟩
        rcases (mem_foldr_union f es x).mp hx2 with ⟨b, hb, hxb⟩
        exact Finset.eq_empty_iff_forall_not_mem.mp (h b hb) x
          (Finset.mem_inter.mpr ⟨hx1, hxb⟩)
    constructor
    · simp only [List.foldr_cons, List.map_cons, List.sum_cons]
      omega
    · simp only [List.foldr_cons, List.map_cons, List.sum_cons, List.pairwise_cons]
      rw [← hinter, ← Finset.card_eq_zero, ← ih.2]
      have h2 := ih.1
      omega

theorem unionCompat_inter (inst : ProblemInstance) (es : List String) (z : String) :
    unionCompat inst es ∩ desksInZoneD inst z
      = es.foldr (fun e s => (compat inst e ∩ desksInZoneD inst z) ∪ s) ∅ := by
  induction es with
  | nil => simp [unionCompat]
  | cons a es ih =>
    simp only [unionCompat, List.foldr_cons] at *
    rw [Finset.union_inter_distrib_right, ih]

/-- C3: for every instance, every group `g` with member list `es`, and every
zone `z` that is a key of `desks_by_zone` (with desk list `ds`), the union
count `compat_union_gz[g][z]` is at most the sum over the members of
`compat_in_zone[e][z]`, with equality exactly when no two members share a
compatible desk located in zone `z` (the union is a set union, not a sum). -/
theorem C3_compat_union_le_sum (inst : ProblemInstance) (g z : String)
    (es ds : List String)
    (hg : alookup inst.employees_by_group g = some es)
    (hz : alookup inst.desks_by_zone z = some ds) :
    compat_union_val inst es z ≤ (es.map (fun e => compat_in_zone inst e z)).sum
      ∧ (compat_union_val inst es z = (es.map (fun e => compat_in_zone inst e z)).sum
          ↔ List.Pairwise
              (fun e1 e2 => compat inst e1 ∩ compat inst e2 ∩ ds.toFinset = ∅) es) := by
  have hdz : desksInZoneD inst z = ds.toFinset := by
    rw [desksInZoneD, hz]; rfl
  have hval : compat_union_val inst es z
      = (es.foldr (fun e s => (compat inst e ∩ desksInZoneD inst z) ∪ s) ∅).card := by
    rw [compat_union_val, unionCompat_inter]
  have hkey := foldr_union_card (fun e => compat inst e ∩ desksInZoneD inst z) es
  have hpair : List.Pairwise (fun a b =>
        (compat inst a ∩ desksInZoneD inst z) ∩ (compat inst b ∩ desksInZoneD inst z) = ∅) es
      ↔ List.Pairwise
        (fun e1 e2 => compat inst e1 ∩ compat inst e2 ∩ ds.toFinset = ∅) es := by
    constructor <;>
    · intro h
      apply h.imp
      intro a b hab
      rw [← hab]
      apply Finset.ext
      intro x
      rw [hdz]
      simp only [Finset.mem_inter]
      tauto
  have hcz : ∀ e, compat_in_zone inst e z = (compat inst e ∩ desksInZoneD inst z).card :=
    fun e => rfl
  constructor
  · rw [hval]
    simpa [hcz] using hkey.1
  · rw [hval, ← hpair]
    simpa [hcz] using hkey.2

/-- Concrete instance for the C3 witness: members `e1`, `e2` of group `G1`
share the compatible desk `D1` in zone `Z1`. -/
def instC3 : ProblemInstance :=
  ⟨["e1", "e2"], ["D1", "D2"], [], ["G1"], ["Z1"], [("Z1", ["D1", "D2"])],
   [("e1", ["D1"]), ("e2", ["D1", "D2"])], [("G1", ["e1", "e2"])], []⟩

/-- Witness for C3: at `instC3` the union count is 2, strictly below the
member sum 3, matching the failure of pairwise disjointness (both members
like desk `D1` of zone `Z1`). -/
theorem C3_compat_union_le_sum_witness :
    compat_union_val instC3 ["e1", "e2"] "Z1"
        ≤ (["e1", "e2"].map (fun e => compat_in_zone instC3 e "Z1")).sum
      ∧ ¬ List.Pairwise
          (fun e1 e2 => compat instC3 e1 ∩ compat instC3 e2
            ∩ (["D1", "D2"] : List String).toFinset = ∅) ["e1", "e2"]
      ∧ compat_union_val instC3 ["e1", "e2"] "Z1"
        ≠ (["e1", "e2"].map (fun e => compat_in_zone instC3 e "Z1")).sum := by
  have h := C3_compat_union_le_sum instC3 "G1" "Z1" ["e1", "e2"] ["D1", "D2"]
    (by decide) (by decide)
  refine ⟨h.1, by decide, ?_⟩
  intro heq
  exact (by decide : ¬ List.Pairwise
    (fun e1 e2 => compat instC3 e1 ∩ compat instC3 e2
      ∩ (["D1", "D2"] : List String).toFinset = ∅) ["e1", "e2"]) (h.2.mp heq)

/-! ### C10 -/

theorem mapMo_eq_none {α β : Type} (f : α → Option β) (l : List α) (a : α)
    (ha : a ∈ l) (hfa : f a = none) : mapMo f l = none := by
  induction l with
  | nil => cases ha
  | cons b l ih =>
    rcases List.mem_cons.mp ha with h | h
    · show (match f b, mapMo f l with
        | some c, some cs => some (c :: cs) | _, _ => none) = none
      rw [← h, hfa]
    · show (match f b, mapMo f l with
        | some c, some cs => some (c :: cs) | _, _ => none) = none
      rw [ih h]
      cases f b <;> rfl

/-- C10: `compute_precalcs` is total on the `compat_union_gz` stage only when
every declared zone is a key of `desks_by_zone`: as soon as some group is
listed in `employees_by_group` and some declared zone `z` is missing from the
keys of `desks_by_zone`, the strict indexing `desks_in_zone[z]` raises a
lookup error (modelled by `none`), whereas `compat_in_zone` reads the same
missing zone through `.get(z, set())` and yields the count `0`. -/
theorem C10_compat_union_gz_raises (inst : ProblemInstance) (z : String)
    (hne : inst.employees_by_group ≠ [])
    (hz : z ∈ inst.zones)
    (hmiss : alookup inst.desks_by_zone z = none) :
    compat_union_gz inst = none ∧ ∀ e, compat_in_zone inst e z = 0 := by
  constructor
  · obtain ⟨ges, rest, hrep⟩ := List.exists_cons_of_ne_nil hne
    have hinner : mapMo (fun w =>
        match alookup inst.desks_by_zone w with
        | none => none
        | some _ => if ges.1 ∈ inst.groups then some () else none)
        inst.zones = none := by
      apply mapMo_eq_none _ _ z hz
      rw [hmiss]
    have houter : mapMo (fun ges2 => mapMo (fun w =>
        match alookup inst.desks_by_zone w with
        | none => none
        | some _ => if ges2.1 ∈ inst.groups then some () else none)
        inst.zones) inst.employees_by_group = none := by
      apply mapMo_eq_none _ _ ges (hrep ▸ List.mem_cons_self ges rest)
      exact hinner
    rw [compat_union_gz, houter]
  · intro e
    rw [compat_in_zone, desksInZoneD, hmiss]
    simp

/-- Witness for C10 at a concrete instance: group `G1` is listed, zone `Z1`
is declared but absent from `desks_by_zone`, so the union-table construction
signals the lookup failure while `compat_in_zone` yields `0`. -/
theorem C10_compat_union_gz_raises_witness :
    compat_union_gz ⟨[], [], [], ["G1"], ["Z1"], [], [], [("G1", [])], []⟩ = none
      ∧ compat_in_zone ⟨[], [], [], ["G1"], ["Z1"], [], [], [("G1", [])], []⟩ "e1" "Z1" = 0 :=
  ⟨(C10_compat_union_gz_raises ⟨[], [], [], ["G1"], ["Z1"], [], [], [("G1", [])], []⟩
      "Z1" (by decide) (by decide) (by decide)).1,
   (C10_compat_union_gz_raises ⟨[], [], [], ["G1"], ["Z1"], [], [], [("G1", [])], []⟩
      "Z1" (by decide) (by decide) (by decide)).2 "e1"⟩

/-! ### C9 -/

/-- C9: the `Valid assignments` counter of `build_outputs` equals the number of
supplied triples whose desk is not the `"none"` sentinel and lies in the
employee's compatible-desk set; hence it never exceeds the number of supplied
triples, and it is `0` when no triple satisfies the predicate. -/
theorem C9_valid_assignments (inst : ProblemInstance)
    (asg : List (String × String × String)) :
    valid_assignments inst asg = asg.countP (fun t => decide (validTriple inst t))
      ∧ valid_assignments inst asg ≤ asg.length
      ∧ ((∀ t ∈ asg, ¬ validTriple inst t) → valid_assignments inst asg = 0) := by
  have hcount : valid_assignments inst asg
      = asg.countP (fun t => decide (validTriple inst t)) := by
    simpa using foldl_count (validTriple inst) asg 0
  refine ⟨hcount, ?_, ?_⟩
  · exact hcount ▸ List.countP_le_length _
  · intro h
    rw [hcount]
    exact List.countP_eq_zero.mpr (fun t ht => by simpa using h t ht)

/-- Witness for C9 at a concrete instance and triple list: no triple is both
non-sentinel and compatible, and the zero clause of the theorem fires. -/
theorem C9_valid_assignments_witness :
    valid_assignments
        ⟨["e1"], ["D1"], ["Mon"], [], [], [], [("e1", ["D1"])], [], []⟩
        [("e1", "Mon", "none"), ("e1", "Mon", "D2")]
      = 0 :=
  (C9_valid_assignments
    ⟨["e1"], ["D1"], ["Mon"], [], [], [], [("e1", ["D1"])], [], []⟩
    [("e1", "Mon", "none"), ("e1", "Mon", "D2")]).2.2 (by decide)

/-! ### Isolation analyzer (`build_excel.py`, `count_isolated_employees`) -/

/-- Row of the reshaped assignment table fed to `count_isolated_employees`:
columns `Group`, `Day`, `Zone` (nullable) and `Employee` (the employee column
only carries row multiplicity; the algorithm never reads its value). -/
structure Row where
  group : String
  day : String
  zone : Option String
  employee : String
deriving DecidableEq

/-- Key of the `(Group, Day, Zone)` grouping. -/
abbrev GDZ := String × String × String

/-- Embeds `df = df_assign[df_assign[Zone].notna()]` followed by the
`(Group, Day, Zone)` projection: one triple per row with a known zone. -/
def knownTriples (rows : List Row) : List GDZ :=
  rows.filterMap (fun r => r.zone.map (fun z => (r.group, r.day, z)))

/-- Projection of a grouping key to its `(Group, Day)` part. -/
def gdOf (k : GDZ) : String × String := (k.1, k.2.1)

/-- Keys of `ctz = df.groupby([Group, Day, Zone]).size()`: the distinct
triples (pandas sorts group keys; every consumer of `ctz` below is
order-insensitive, so first-occurrence order is used). -/
def ctzK (K : List GDZ) : List GDZ := K.dedup

/-- Size column of `ctz`: occurrences of one grouping key. -/
def occK (K : List GDZ) (k : GDZ) : Nat := K.count k

/-- Keys of `zones_per_gd = ctz.groupby([Group, Day])[Zone].nunique()`. -/
def gdKeysK (K : List GDZ) : List (String × String) := ((ctzK K).map gdOf).dedup

/-- The `nunique` value: distinct zones of one `(Group, Day)` partition
(the rows of `ctz` with that key are distinct triples, so their zones are
pairwise distinct and a plain length counts them). -/
def numZonesK (K : List GDZ) (p : String × String) : Nat :=
  ((ctzK K).filter (fun k => decide (gdOf k = p))).length

/-- Embeds `cand = zones_per_gd[zones_per_gd[num_zones] > 1][[Group, Day]]`. -/
def candK (K : List GDZ) : List (String × String) :=
  (gdKeysK K).filter (fun p => decide (1 < numZonesK K p))

/-- Occupancy column `n` of the rows of `ctz` belonging to one `(Group, Day)`
partition (the frame passed to `_isolados_grupo_dia`). -/
def nsK (K : List GDZ) (p : String × String) : List Nat :=
  ((ctzK K).filter (fun k => decide (gdOf k = p))).map (occK K)

/-- Embeds `_isolados_grupo_dia`: if every zone of the partition has exactly
one occupant the whole partition is isolated, else only occupants of
single-occupant zones are. -/
def isolatedK (K : List GDZ) (p : String × String) : Nat :=
  if (nsK K p).all (fun n => n == 1) then (nsK K p).sum
  else ((nsK K p).filter (fun n => n == 1)).sum

/-- Total of `count_isolated_employees` as a function of the known-zone
triples (including the early `return 0` on an empty candidate frame). -/
def countIsolatedK (K : List GDZ) : Nat :=
  if candK K = [] then 0 else ((candK K).map (isolatedK K)).sum

/-- Embeds `count_isolated_employees` of `build_excel.py`. -/
def count_isolated_employees (rows : List Row) : Nat :=
  countIsolatedK (knownTriples rows)

/-! Specification-side definitions for C1, written from the words of the
claim (partition per `(group, day)`, per-zone occupancy, two-zone threshold),
to be compared with the embedding above. -/

/-- Occupants of one `(group, day)` partition with a known zone. -/
def partitionRows (rows : List Row) (p : String × String) : List Row :=
  rows.filter (fun r => decide (r.group = p.1 ∧ r.day = p.2 ∧ r.zone.isSome))

/-- Zones of the occupants of one partition, with multiplicity. -/
def partitionZoneList (rows : List Row) (p : String × String) : List String :=
  (partitionRows rows p).filterMap (fun r => r.zone)

/-- Distinct zones spanned by one partition. -/
def specZones (rows : List Row) (p : String × String) : List String :=
  (partitionZoneList rows p).dedup

/-- Occupancy of one zone within one partition. -/
def specOcc (rows : List Row) (p : String × String) (z : String) : Nat :=
  (partitionZoneList rows p).count z

/-- Isolated occupants of one partition per the claim: partitions spanning at
most one distinct zone contribute nothing; otherwise all occupants if every
zone is a singleton, else exactly the occupants of singleton zones. -/
def specIsolated (rows : List Row) (p : String × String) : Nat :=
  if 2 ≤ (specZones rows p).length then
    if (specZones rows p).all (fun z => specOcc rows p z == 1) then
      (partitionRows rows p).length
    else
      (((specZones rows p).filter (fun z => specOcc rows p z == 1)).map
        (specOcc rows p)).sum
  else 0

/-- Distinct `(group, day)` partitions having at least one known-zone row. -/
def specGdKeys (rows : List Row) : List (String × String) :=
  ((knownTriples rows).map gdOf).dedup

/-- Claim-side total: the sum of isolated occupants over all partitions. -/
def specTotalIsolated (rows : List Row) : Nat :=
  ((specGdKeys rows).map (specIsolated rows)).sum

/-! General list helpers for the C1 correspondence proof. -/

theorem map_congr_mem {α β : Type} {l : List α} {f g : α → β}
    (h : ∀ x ∈ l, f x = g x) : l.map f = l.map g := by
  induction l with
  | nil => rfl
  | cons a l ih =>
    simp only [List.map_cons]
    rw [h a (List.mem_cons_self a l), ih (fun x hx => h x (List.mem_cons_of_mem a hx))]

theorem perm_of_nodup_mem {α : Type} {l1 l2 : List α}
    (h1 : l1.Nodup) (h2 : l2.Nodup) (hm : ∀ x, x ∈ l1 ↔ x ∈ l2) : l1.Perm l2 :=
  (List.perm_ext_iff_of_nodup h1 h2).mpr hm

theorem sum_map_of_nodup_mem {α : Type} {l1 l2 : List α}
    (h1 : l1.Nodup) (h2 : l2.Nodup) (hm : ∀ x, x ∈ l1 ↔ x ∈ l2) (f : α → Nat) :
    (l1.map f).sum = (l2.map f).sum :=
  ((perm_of_nodup_mem h1 h2 hm).map f).sum_eq

theorem all_of_mem_iff {α : Type} {l1 l2 : List α} (q : α → Bool)
    (hm : ∀ x, x ∈ l1 ↔ x ∈ l2) : l1.all q = l2.all q := by
  cases hq : l2.all q
  · rcases List.all_eq_false.mp hq with ⟨x, hx, hqx⟩
    cases hq1 : l1.all q
    · rfl
    · exact absurd (List.all_eq_true.mp hq1 x ((hm x).mpr hx)) hqx
  · exact List.all_eq_true.mpr (fun x hx => List.all_eq_true.mp hq x ((hm x).mp hx))

theorem sum_map_filter_vanish {α : Type} (l : List α) (q : α → Bool) (f : α → Nat)
    (h : ∀ x ∈ l, q x = false → f x = 0) :
    (l.map f).sum = ((l.filter q).map f).sum := by
  induction l with
  | nil => rfl
  | cons a l ih =>
    have ih2 := ih (fun x hx => h x (List.mem_cons_of_mem a hx))
    cases hqa : q a
    · simp [List.filter_cons, hqa, h a (List.mem_cons_self a l) hqa, ih2]
    · simp [List.filter_cons, hqa, ih2]

theorem length_filterMap_of_isSome {α β : Type} (f : α → Option β) (l : List α)
    (h : ∀ x ∈ l, (f x).isSome) : (l.filterMap f).length = l.length := by
  induction l with
  | nil => rfl
  | cons a l ih =>
    have ha := h a (List.mem_cons_self a l)
    rcases Option.isSome_iff_exists.mp ha with ⟨b, hb⟩
    simp [List.filterMap_cons, hb, ih (fun x hx => h x (List.mem_cons_of_mem a hx))]

theorem partitionZoneList_eq (rows : List Row) (p : String × String) :
    partitionZoneList rows p
      = ((knownTriples rows).filter (fun k => decide (gdOf k = p))).map
          (fun k => k.2.2) := by
  induction rows with
  | nil => rfl
  | cons r rows ih =>
    simp only [partitionZoneList, partitionRows] at ih ⊢
    simp only [knownTriples] at ih ⊢
    rcases hz : r.zone with _ | z
    · have hq : (decide (r.group = p.1 ∧ r.day = p.2 ∧ r.zone.isSome)) = false := by
        simp [hz]
      rw [List.filter_cons, hq, if_neg (by simp), List.filterMap_cons, hz]
      exact ih
    · by_cases hgd : (r.group, r.day) = p
      · subst hgd
        rw [List.filter_cons, if_pos (by simp [hz])]
        simp only [List.filterMap_cons, hz, Option.map_some']
        rw [List.filter_cons, if_pos (by simp [gdOf]), List.map_cons]
        exact congrArg (List.cons z) ih
      · have hcond : ¬ (decide (r.group = p.1 ∧ r.day = p.2 ∧ r.zone.isSome = true) = true) := by
          simp only [decide_eq_true_eq]
          intro h
          exact hgd (Prod.ext h.1 h.2.1)
        rw [List.filter_cons, if_neg hcond]
        simp only [List.filterMap_cons, hz, Option.map_some']
        rw [List.filter_cons, if_neg (by simpa [gdOf] using hgd)]
        exact ih

theorem partitionRows_length (rows : List Row) (p : String × String) :
    (partitionRows rows p).length = (partitionZoneList rows p).length := by
  rw [partitionZoneList]
  symm
  apply length_filterMap_of_isSome
  intro r hr
  have := (List.mem_filter.mp hr).2
  exact (of_decide_eq_true this).2.2

theorem count_third (K : List GDZ) (p : String × String) (z : String) :
    ((K.filter (fun k => decide (gdOf k = p))).map (fun k => k.2.2)).count z
      = K.count (p.1, p.2, z) := by
  induction K with
  | nil => rfl
  | cons k K ih =>
    by_cases hk : k = (p.1, p.2, z)
    · subst hk
      rw [List.filter_cons, if_pos (by simp [gdOf]), List.map_cons,
        List.count_cons, List.count_cons, ih]
      simp
    · by_cases hgd : gdOf k = p
      · have hz : ¬ k.2.2 = z := by
          intro h3
          apply hk
          have : k = (k.1, k.2.1, k.2.2) := rfl
          rw [this, h3]
          have h4 : (k.1, k.2.1) = p := hgd
          rw [show k.1 = p.1 from congrArg Prod.fst h4,
            show k.2.1 = p.2 from congrArg Prod.snd h4]
        rw [List.filter_cons, if_pos (by simpa using hgd), List.map_cons,
          List.count_cons, List.count_cons, ih]
        simp [hz, hk]
      · rw [List.filter_cons, if_neg (by simpa using hgd), ih,
          List.count_cons, if_neg (by simpa using hk), Nat.add_zero]

theorem specOcc_eq (rows : List Row) (p : String × String) (z : String) :
    specOcc rows p z = (knownTriples rows).count (p.1, p.2, z) := by
  rw [specOcc, partitionZoneList_eq, count_third]

theorem mem_third_filter (L : List GDZ) (p : String × String) (z : String) :
    z ∈ ((L.filter (fun k => decide (gdOf k = p))).map (fun k => k.2.2))
      ↔ (p.1, p.2, z) ∈ L := by
  simp only [List.mem_map, List.mem_filter, decide_eq_true_eq]
  constructor
  · rintro ⟨k, ⟨hkL, hgd⟩, rfl⟩
    have hk : k = (p.1, p.2, k.2.2) := by
      have h4 : (k.1, k.2.1) = p := hgd
      have : k = (k.1, k.2.1, k.2.2) := rfl
      rw [this, show k.1 = p.1 from congrArg Prod.fst h4,
        show k.2.1 = p.2 from congrArg Prod.snd h4]
    rw [← hk]
    exact hkL
  · intro hk
    exact ⟨(p.1, p.2, z), ⟨hk, by simp [gdOf]⟩, rfl⟩

theorem nodup_third_filter (L : List GDZ) (hL : L.Nodup) (p : String × String) :
    ((L.filter (fun k => decide (gdOf k = p))).map (fun k => k.2.2)).Nodup := by
  apply List.Nodup.map_on _ (hL.filter _)
  intro x hx y hy hxy
  have hgx : gdOf x = p := of_decide_eq_true (List.mem_filter.mp hx).2
  have hgy : gdOf y = p := of_decide_eq_true (List.mem_filter.mp hy).2
  have ex : x = (x.1, x.2.1, x.2.2) := rfl
  have ey : y = (y.1, y.2.1, y.2.2) := rfl
  rw [ex, ey, hxy,
    show x.1 = p.1 from congrArg Prod.fst hgx,
    show x.2.1 = p.2 from congrArg Prod.snd hgx,
    show y.1 = p.1 from congrArg Prod.fst hgy,
    show y.2.1 = p.2 from congrArg Prod.snd hgy]

theorem mem_specZones (rows : List Row) (p : String × String) (z : String) :
    z ∈ specZones rows p ↔ (p.1, p.2, z) ∈ knownTriples rows := by
  rw [specZones, List.mem_dedup, partitionZoneList_eq, mem_third_filter]

theorem nsK_eq (K : List GDZ) (p : String × String) :
    nsK K p = (((ctzK K).filter (fun k => decide (gdOf k = p))).map (fun k => k.2.2)).map
      (fun z => K.count (p.1, p.2, z)) := by
  rw [nsK, List.map_map]
  apply map_congr_mem
  intro k hk
  have hgd : gdOf k = p := of_decide_eq_true (List.mem_filter.mp hk).2
  have ek : k = (k.1, k.2.1, k.2.2) := rfl
  show occK K k = K.count (p.1, p.2, k.2.2)
  rw [occK, ek, show k.1 = p.1 from congrArg Prod.fst hgd,
    show k.2.1 = p.2 from congrArg Prod.snd hgd]

theorem numZones_eq (rows : List Row) (p : String × String) :
    numZonesK (knownTriples rows) p = (specZones rows p).length := by
  have h1 : numZonesK (knownTriples rows) p
      = ((((knownTriples rows).dedup).filter (fun k => decide (gdOf k = p))).map
          (fun k => k.2.2)).length := by
    rw [numZonesK, ctzK, List.length_map]
  rw [h1]
  apply List.Perm.length_eq
  apply perm_of_nodup_mem
  · exact nodup_third_filter _ (List.nodup_dedup _) p
  · exact List.nodup_dedup _
  · intro z
    rw [mem_third_filter, List.mem_dedup, mem_specZones]

theorem specIsolated_of_few_zones (rows : List Row) (p : String × String)
    (h : ¬ 1 < numZonesK (knownTriples rows) p) : specIsolated rows p = 0 := by
  rw [specIsolated, if_neg]
  rw [← numZones_eq]
  omega

theorem all_map_comp {α β : Type} (l : List α) (f : α → β) (q : β → Bool) :
    (l.map f).all q = l.all (fun a => q (f a)) := by
  induction l with
  | nil => rfl
  | cons a l ih => simp [ih]

theorem isolatedK_eq_spec (rows : List Row) (p : String × String)
    (h2 : 1 < numZonesK (knownTriples rows) p) :
    isolatedK (knownTriples rows) p = specIsolated rows p := by
  set K := knownTriples rows with hK
  set ZC := ((ctzK K).filter (fun k => decide (gdOf k = p))).map (fun k => k.2.2) with hZC
  set cnt := fun z => K.count (p.1, p.2, z) with hcnt
  have hmemZ : ∀ z, z ∈ ZC ↔ z ∈ specZones rows p := by
    intro z
    rw [hZC, ctzK, mem_third_filter, List.mem_dedup, hK, mem_specZones]
  have hndC : ZC.Nodup := by
    rw [hZC, ctzK]
    exact nodup_third_filter _ (List.nodup_dedup _) p
  have hndS : (specZones rows p).Nodup := List.nodup_dedup _
  have hns : nsK K p = ZC.map cnt := nsK_eq K p
  have hoccS : ∀ z, specOcc rows p z = cnt z := fun z => by
    rw [hcnt, hK]
    exact specOcc_eq rows p z
  have hall : (nsK K p).all (fun n => n == 1)
      = (specZones rows p).all (fun z => specOcc rows p z == 1) := by
    rw [hns, all_map_comp, all_of_mem_iff _ hmemZ]
    apply congrArg
    funext z
    show (cnt z == 1) = (specOcc rows p z == 1)
    rw [hoccS z]
  have hsum : (ZC.map cnt).sum = ((specZones rows p).map cnt).sum :=
    sum_map_of_nodup_mem hndC hndS hmemZ cnt
  have htot : ((specZones rows p).map cnt).sum = (partitionRows rows p).length := by
    rw [partitionRows_length, specZones]
    rw [show ((partitionZoneList rows p).dedup.map cnt)
        = ((partitionZoneList rows p).dedup.map
            (fun z => (partitionZoneList rows p).count z)) from
      map_congr_mem (fun z _ => (hoccS z).symm)]
    exact List.sum_map_count_dedup_eq_length _
  have hfilt : ((nsK K p).filter (fun n => n == 1)).sum
      = (((specZones rows p).filter (fun z => specOcc rows p z == 1)).map
          (specOcc rows p)).sum := by
    rw [hns, List.filter_map]
    have hpred : ∀ z, ((fun n => n == 1) ∘ cnt) z = (specOcc rows p z == 1) := by
      intro z
      show (cnt z == 1) = (specOcc rows p z == 1)
      rw [hoccS z]
    have hmemF : ∀ z, z ∈ ZC.filter ((fun n => n == 1) ∘ cnt)
        ↔ z ∈ (specZones rows p).filter (fun z => specOcc rows p z == 1) := by
      intro z
      rw [List.mem_filter, List.mem_filter, hmemZ z, hpred z]
    rw [show (((specZones rows p).filter (fun z => specOcc rows p z == 1)).map
          (specOcc rows p))
        = (((specZones rows p).filter (fun z => specOcc rows p z == 1)).map cnt) from
      map_congr_mem (fun z _ => hoccS z)]
    exact sum_map_of_nodup_mem (hndC.filter _) (hndS.filter _) hmemF cnt
  have hge : 2 ≤ (specZones rows p).length := by
    rw [← numZones_eq, ← hK]
    omega
  rw [isolatedK, specIsolated, hall, if_pos hge]
  cases hcond : (specZones rows p).all (fun z => specOcc rows p z == 1)
  · have hne : ¬ (false = true) := Bool.false_ne_true
    rw [if_neg hne, if_neg hne]
    exact hfilt
  · rw [if_pos rfl, if_pos rfl, hns, hsum, htot]

theorem gd_mem_keys (K : List GDZ) (p : String × String) :
    p ∈ gdKeysK K ↔ ∃ k ∈ K, gdOf k = p := by
  rw [gdKeysK, List.mem_dedup, List.mem_map]
  constructor
  · rintro ⟨k, hk, rfl⟩
    exact ⟨k, List.mem_dedup.mp hk, rfl⟩
  · rintro ⟨k, hk, rfl⟩
    exact ⟨k, List.mem_dedup.mpr hk, rfl⟩

theorem spec_gd_mem (rows : List Row) (p : String × String) :
    p ∈ specGdKeys rows ↔ ∃ k ∈ knownTriples rows, gdOf k = p := by
  rw [specGdKeys, List.mem_dedup, List.mem_map]

theorem count_isolated_eq_specTotal (rows : List Row) :
    count_isolated_employees rows = specTotalIsolated rows := by
  rw [count_isolated_employees, countIsolatedK]
  by_cases hc : candK (knownTriples rows) = []
  · rw [if_pos hc]
    symm
    apply List.sum_eq_zero
    intro x hx
    obtain ⟨p, hp, rfl⟩ := List.mem_map.mp hx
    apply specIsolated_of_few_zones
    intro hgt
    have hpk : p ∈ gdKeysK (knownTriples rows) :=
      (gd_mem_keys _ p).mpr ((spec_gd_mem rows p).mp hp)
    have hpc : p ∈ candK (knownTriples rows) :=
      List.mem_filter.mpr ⟨hpk, by simpa using hgt⟩
    rw [hc] at hpc
    cases hpc
  · rw [if_neg hc]
    have h1 : ((candK (knownTriples rows)).map (isolatedK (knownTriples rows))).sum
        = ((candK (knownTriples rows)).map (specIsolated rows)).sum := by
      apply congrArg
      apply map_congr_mem
      intro p hp
      exact isolatedK_eq_spec rows p (of_decide_eq_true (List.mem_filter.mp hp).2)
    have h2 : ((gdKeysK (knownTriples rows)).map (specIsolated rows)).sum
        = ((candK (knownTriples rows)).map (specIsolated rows)).sum := by
      rw [candK]
      apply sum_map_filter_vanish
      intro p _ hfalse
      exact specIsolated_of_few_zones rows p (by simpa using hfalse)
    have h3 : ((specGdKeys rows).map (specIsolated rows)).sum
        = ((gdKeysK (knownTriples rows)).map (specIsolated rows)).sum := by
      apply sum_map_of_nodup_mem (List.nodup_dedup _) (List.nodup_dedup _)
      intro p
      simp [ctzK]
    rw [h1, ← h2, ← h3, specTotalIsolated]

/-! ### C1 -/

/-- C1: for every reshaped table, `count_isolated_employees` returns exactly
the sum over all `(group, day)` partitions (restricted to known-zone rows) of
the claim's per-partition rule: a partition spanning at most one distinct zone
contributes `0`; one spanning two or more zones contributes all of its
occupants when every zone holds exactly one occupant, and otherwise exactly
the occupants of zones with exactly one occupant.  In particular a partition
with zone occupancies `A:1, B:3` contributes `1` and one with `A:4`
contributes `0`. -/
theorem C1_count_isolated_employees :
    (∀ rows : List Row, count_isolated_employees rows = specTotalIsolated rows)
      ∧ count_isolated_employees
          [⟨"G", "D", some "A", "e1"⟩, ⟨"G", "D", some "B", "e2"⟩,
           ⟨"G", "D", some "B", "e3"⟩, ⟨"G", "D", some "B", "e4"⟩] = 1
      ∧ count_isolated_employees
          [⟨"G", "D", some "A", "e1"⟩, ⟨"G", "D", some "A", "e2"⟩,
           ⟨"G", "D", some "A", "e3"⟩, ⟨"G", "D", some "A", "e4"⟩] = 0 :=
  ⟨count_isolated_eq_specTotal, by decide, by decide⟩

/-! ### C8 -/

theorem knownTriples_filter (rows : List Row) :
    knownTriples (rows.filter (fun r => r.zone.isSome)) = knownTriples rows := by
  induction rows with
  | nil => rfl
  | cons r rows ih =>
    rcases hz : r.zone with _ | z
    · rw [List.filter_cons, if_neg (by simp [hz])]
      simp only [knownTriples] at ih ⊢
      rw [List.filterMap_cons, hz]
      exact ih
    · rw [List.filter_cons, if_pos (by simp [hz])]
      simp only [knownTriples] at ih ⊢
      simp only [List.filterMap_cons, hz, Option.map_some']
      exact congrArg (List.cons _) ih

/-- C8: `count_isolated_employees` is invariant under adding or removing rows
whose zone is unresolved: two tables with the same known-zone rows yield the
same total, and prepending a null-zone row never changes the result (so a
null-zone occupant is never counted as isolated and affects no partition). -/
theorem C8_null_zone_rows :
    (∀ rows1 rows2 : List Row,
        rows1.filter (fun r => r.zone.isSome) = rows2.filter (fun r => r.zone.isSome) →
        count_isolated_employees rows1 = count_isolated_employees rows2)
      ∧ (∀ (r : Row) (rows : List Row), r.zone = none →
          count_isolated_employees (r :: rows) = count_isolated_employees rows) := by
  constructor
  · intro rows1 rows2 h
    rw [count_isolated_employees, count_isolated_employees,
      ← knownTriples_filter rows1, ← knownTriples_filter rows2, h]
  · intro r rows hr
    rw [count_isolated_employees, count_isolated_employees]
    apply congrArg
    show knownTriples (r :: rows) = knownTriples rows
    simp only [knownTriples, List.filterMap_cons, hr, Option.map_none']

/-- Witness for C8: a table holding only a null-zone row counts like the empty
table, and dropping a null-zone row from a three-row table keeps the total. -/
theorem C8_null_zone_rows_witness :
    count_isolated_employees [⟨"G", "D", none, "e1"⟩]
        = count_isolated_employees ([] : List Row)
      ∧ count_isolated_employees
          [⟨"G", "D", none, "e0"⟩, ⟨"G", "D", some "A", "e1"⟩, ⟨"G", "D", some "B", "e2"⟩]
        = count_isolated_employees
          [⟨"G", "D", some "A", "e1"⟩, ⟨"G", "D", some "B", "e2"⟩] :=
  ⟨C8_null_zone_rows.1 [⟨"G", "D", none, "e1"⟩] [] (by decide),
   C8_null_zone_rows.2 ⟨"G", "D", none, "e0"⟩
     [⟨"G", "D", some "A", "e1"⟩, ⟨"G", "D", some "B", "e2"⟩] rfl⟩

/-! ### Report assembler wide table (`build_outputs`, C4) -/

/-- Function view of a Python dict filled by successive `m[k] = v` updates
(later writes shadow earlier ones, as in the `ed_to_desk` loop). -/
def dictFold {α β : Type} [DecidableEq α] (pairs : List (α × β)) (m0 : α → Option β) :
    α → Option β :=
  pairs.foldl (fun m kv => fun x => if x = kv.1 then some kv.2 else m x) m0

/-- Embeds the `ed_to_desk[(e, d)] = str(desk)` loop of `build_outputs`
(`str` of a string is the string itself). -/
def ed_to_desk (asg : List (String × String × String)) : String × String → Option String :=
  dictFold (asg.map (fun t => ((t.1, t.2.1), t.2.2))) (fun _ => none)

/-- Lexicographic comparison of code-point sequences, the order Python uses
to compare strings. -/
def lexLeN : List Nat → List Nat → Bool
  | [], _ => true
  | _ :: _, [] => false
  | a :: as, b :: bs => if a < b then true else if b < a then false else lexLeN as bs

/-- Python string comparison `s <= t` (code-point lexicographic). -/
def pyStrLe (s t : String) : Bool :=
  lexLeN (s.data.map Char.toNat) (t.data.map Char.toNat)

/-- Embeds Python `sorted()` over strings: ascending code-point order. -/
def pySorted (l : List String) : List String :=
  l.insertionSort (fun a b => pyStrLe a b = true)

/-- Embeds the wide `EmployeeAssignment` frame of `build_outputs`: one row per
employee of `sorted(inst.employees)`, one cell per day in declared order,
valued `ed_to_desk.get((e, d), "None")`. -/
def df_assign_wide (inst : ProblemInstance) (asg : List (String × String × String)) :
    List (String × List (String × String)) :=
  (pySorted inst.employees).map (fun e =>
    (e, inst.days.map (fun d => (d, (ed_to_desk asg (e, d)).getD "None"))))

/-- Claim-side helper: the last triple supplied for `(e, d)`, if any. -/
def lastDeskFor (asg : List (String × String × String)) (e d : String) : Option String :=
  ((asg.filter (fun t => decide (t.1 = e ∧ t.2.1 = d))).getLast?).map (fun t => t.2.2)

/-- Cell value demanded by C4 as stated: the desk of the last `(e, d)` triple
whose desk is not the assignment sentinel `"none"`, else the absence marker
`"None"`. -/
def claimCellC4 (asg : List (String × String × String)) (e d : String) : String :=
  match (asg.filter (fun t => decide (t.1 = e ∧ t.2.1 = d ∧ t.2.2 ≠ "none"))).getLast? with
  | some t => t.2.2
  | none => "None"

theorem dictFold_eq_getLast {α β : Type} [DecidableEq α]
    (pairs : List (α × β)) (m0 : α → Option β) (x : α) :
    dictFold pairs m0 x
      = (match (pairs.filter (fun kv => decide (kv.1 = x))).getLast? with
        | some kv => some kv.2
        | none => m0 x) := by
  induction pairs generalizing m0 with
  | nil => rfl
  | cons kv pairs ih =>
    have hstep : dictFold (kv :: pairs) m0
        = dictFold pairs (fun y => if y = kv.1 then some kv.2 else m0 y) := rfl
    rw [hstep, ih, List.filter_cons]
    by_cases hk : kv.1 = x
    · rw [if_pos (decide_eq_true hk)]
      cases hl : pairs.filter (fun kv2 => decide (kv2.1 = x)) with
      | nil =>
        show (if x = kv.1 then some kv.2 else m0 x) = some kv.2
        rw [if_pos hk.symm]
      | cons q qs =>
        rw [List.getLast?_cons_cons]
        cases hq : (q :: qs).getLast? with
        | none => exact absurd hq (by simp)
        | some kv2 => rfl
    · rw [if_neg (fun h => hk (of_decide_eq_true h))]
      cases hq : (pairs.filter (fun kv2 => decide (kv2.1 = x))).getLast? with
      | none =>
        show (if x = kv.1 then some kv.2 else m0 x) = m0 x
        rw [if_neg (fun h => hk h.symm)]
      | some kv2 => rfl

theorem lexLeN_total (a b : List Nat) : lexLeN a b = true ∨ lexLeN b a = true := by
  induction a generalizing b with
  | nil => left; rfl
  | cons x as ih =>
    cases b with
    | nil => right; rfl
    | cons y bs =>
      rcases Nat.lt_trichotomy x y with h | h | h
      · left
        rw [lexLeN, if_pos h]
      · subst h
        rcases ih bs with h2 | h2
        · left
          rw [lexLeN, if_neg (Nat.lt_irrefl x), if_neg (Nat.lt_irrefl x)]
          exact h2
        · right
          rw [lexLeN, if_neg (Nat.lt_irrefl x), if_neg (Nat.lt_irrefl x)]
          exact h2
      · right
        rw [lexLeN, if_pos h]

theorem lexLeN_trans (a b c : List Nat) (h1 : lexLeN a b = true)
    (h2 : lexLeN b c = true) : lexLeN a c = true := by
  induction a generalizing b c with
  | nil => rfl
  | cons x as ih =>
    cases b with
    | nil => cases h1
    | cons y bs =>
      cases c with
      | nil => cases h2
      | cons z cs =>
        rw [lexLeN] at h1 h2 ⊢
        by_cases hxy : x < y
        · rw [if_pos hxy] at h1
          by_cases hyz : y < z
          · rw [if_pos (Nat.lt_trans hxy hyz)]
          · by_cases hzy : z < y
            · rw [if_neg hyz, if_pos hzy] at h2
              cases h2
            · have : y = z := by omega
              subst this
              rw [if_pos hxy]
        · by_cases hyx : y < x
          · rw [if_neg hxy, if_pos hyx] at h1
            cases h1
          · have hxy2 : x = y := by omega
            subst hxy2
            rw [if_neg (Nat.lt_irrefl x), if_neg (Nat.lt_irrefl x)] at h1
            by_cases hyz : x < z
            · rw [if_pos hyz]
            · by_cases hzy : z < x
              · rw [if_neg hyz, if_pos hzy] at h2
                cases h2
              · have : x = z := by omega
                subst this
                rw [if_neg (Nat.lt_irrefl x), if_neg (Nat.lt_irrefl x)] at h2 ⊢
                exact ih bs cs h1 h2

instance : IsTotal String (fun a b => pyStrLe a b = true) :=
  ⟨fun a b => lexLeN_total (a.data.map Char.toNat) (b.data.map Char.toNat)⟩

instance : IsTrans String (fun a b => pyStrLe a b = true) :=
  ⟨fun a b c h1 h2 =>
    lexLeN_trans (a.data.map Char.toNat) (b.data.map Char.toNat)
      (c.data.map Char.toNat) h1 h2⟩

/-! ### C4 -/

/-- Concrete instance for C4: one employee, one day. -/
def instC4 : ProblemInstance := ⟨["e1"], [], ["Mon"], [], [], [], [], [], []⟩

/-- Counterexample to C4 as stated: with the single triple
`("e1", "Mon", "none")` no triple with a non-sentinel desk exists for the
cell, so the claim demands the absence marker `"None"`; the code instead
stores the sentinel string verbatim and the cell reads `"none"`. -/
theorem C4_counterexample :
    df_assign_wide instC4 [("e1", "Mon", "none")] = [("e1", [("Mon", "none")])]
      ∧ claimCellC4 [("e1", "Mon", "none")] "e1" "Mon" = "None"
      ∧ ("none" : String) ≠ "None" := by
  refine ⟨by decide, by decide, by decide⟩

theorem ed_to_desk_eq_lastDesk (asg : List (String × String × String)) (e d : String) :
    ed_to_desk asg (e, d) = lastDeskFor asg e d := by
  rw [ed_to_desk, dictFold_eq_getLast, lastDeskFor]
  have hfe : (asg.map (fun t => ((t.1, t.2.1), t.2.2))).filter
      (fun kv => decide (kv.1 = (e, d)))
      = (asg.filter (fun t => decide (t.1 = e ∧ t.2.1 = d))).map
          (fun t => ((t.1, t.2.1), t.2.2)) := by
    rw [List.filter_map]
    apply congrArg
    apply List.filter_congr
    intro t _
    show decide ((t.1, t.2.1) = (e, d)) = decide (t.1 = e ∧ t.2.1 = d)
    simp [Prod.ext_iff]
  rw [hfe, List.getLast?_map]
  cases (asg.filter (fun t => decide (t.1 = e ∧ t.2.1 = d))).getLast? with
  | none => rfl
  | some t => rfl

/-- C4 (amended): the wide table has one row per employee in ascending
identifier order and one cell per day in the declared order, and each
`(employee, day)` cell holds the desk string of the **last** triple supplied
for that pair — copied verbatim even when it is the assignment sentinel
`"none"` — and the absence marker `"None"` exactly when no triple exists for
the pair. -/
theorem C4_wide_table (inst : ProblemInstance) (asg : List (String × String × String)) :
    ((df_assign_wide inst asg).map Prod.fst).Sorted (fun a b => pyStrLe a b = true)
      ∧ ((df_assign_wide inst asg).map Prod.fst).Perm inst.employees
      ∧ ∀ e row, (e, row) ∈ df_assign_wide inst asg →
          row.map Prod.fst = inst.days
            ∧ ∀ d v, (d, v) ∈ row → v = (lastDeskFor asg e d).getD "None" := by
  have hfst : (df_assign_wide inst asg).map Prod.fst = pySorted inst.employees := by
    rw [df_assign_wide, List.map_map]
    exact List.map_id _
  refine ⟨?_, ?_, ?_⟩
  · rw [hfst, pySorted]
    exact List.sorted_insertionSort _ _
  · rw [hfst, pySorted]
    exact List.perm_insertionSort _ _
  · intro e row hrow
    obtain ⟨e2, _, heq⟩ := List.mem_map.mp hrow
    have he : e2 = e := congrArg Prod.fst heq
    subst he
    have hrw : row = inst.days.map
        (fun d => (d, (ed_to_desk asg (e2, d)).getD "None")) :=
      (congrArg Prod.snd heq).symm
    subst hrw
    constructor
    · rw [List.map_map]
      exact List.map_id _
    · intro d v hdv
      obtain ⟨d2, _, heq2⟩ := List.mem_map.mp hdv
      have hd : d2 = d := congrArg Prod.fst heq2
      subst hd
      have hv : v = (ed_to_desk asg (e2, d2)).getD "None" :=
        (congrArg Prod.snd heq2).symm
      rw [hv, ed_to_desk_eq_lastDesk]

/-- Witness for the amended C4 at the concrete one-employee instance and the
sentinel-desk triple list: the single row belongs to `e1`, its column list is
the declared day list, and the cell carries the last triple's desk string. -/
theorem C4_wide_table_witness :
    ((df_assign_wide instC4 [("e1", "Mon", "none")]).map Prod.fst).Perm instC4.employees
      ∧ ("none" : String)
        = (lastDeskFor [("e1", "Mon", "none")] "e1" "Mon").getD "None" :=
  ⟨(C4_wide_table instC4 [("e1", "Mon", "none")]).2.1,
   ((C4_wide_table instC4 [("e1", "Mon", "none")]).2.2 "e1" [("Mon", "none")]
       (by decide)).2 "Mon" "none" (by decide)⟩

/-! ### Instance validator and loader (`read_instances.py`) -/

/-- Parsed structured input values (the JSON-like objects `load_instance`
accepts).  Dict keys are strings, as in JSON; `num` stands for any value that
is neither a string, a list nor a dict (enough to exercise every type check). -/
inductive J where
  | str : String → J
  | num : Int → J
  | list : List J → J
  | dict : List (String × J) → J

/-- Embeds `data[k]` / `data.get(k, default)`.  The junk default is never
observable: every consumer (`asStrList` / `asDictLS`) maps it to the same
empty value Python's `list([])` / `dict({})` defaults produce. -/
def fetchJ (data : List (String × J)) (k : String) : J :=
  (alookup data k).getD (.num 0)

/-- The nine required top-level keys, in the order the validator checks them. -/
def REQUIRED_KEYS : List String :=
  ["Employees", "Desks", "Days", "Groups", "Zones",
   "Desks_Z", "Desks_E", "Employees_G", "Days_E"]

/-- Embeds `isinstance(x, str)`. -/
def isStr : J → Bool
  | .str _ => true
  | _ => false

/-- Embeds `isinstance(v, list) and all(isinstance(x, str) for x in v)`. -/
def isListOfStr : J → Bool
  | .list l => l.all isStr
  | _ => false

/-- Embeds Python `len(v)`: `none` models the `TypeError` raised on an
unsized value. -/
def pyLen : J → Option Nat
  | .str s => some s.length
  | .list l => some l.length
  | .dict d => some d.length
  | .num _ => none

/-- Hash key of a hashable value; `none` models the `TypeError` raised by
`set(...)` on an unhashable element (a list or dict inside the collection). -/
def hashKey : J → Option (String ⊕ Int)
  | .str s => some (Sum.inl s)
  | .num n => some (Sum.inr n)
  | _ => none

/-- Embeds `len(set(v))`: distinct characters of a string, distinct hashable
elements of a list, distinct keys of a dict; `none` models `TypeError`. -/
def pySetSize : J → Option Nat
  | .str s => some s.data.dedup.length
  | .list l => (mapMo hashKey l).map (fun ks => ks.dedup.length)
  | .dict d => some (d.map Prod.fst).dedup.length
  | .num _ => none

/-- Embeds `_unique(seq) = len(seq) == len(set(seq))`; `none` models the
`TypeError` escaping when `seq` is unsized or has unhashable elements. -/
def pyUnique (v : J) : Option Bool :=
  match pyLen v, pySetSize v with
  | some a, some b => some (a == b)
  | _, _ => none

/-- Extracts a `list[str]` value (exact on well-typed values, the only place
it is consulted; any other value yields the empty list, like the loader's
defaults). -/
def asStrList : J → List String
  | .list l => l.filterMap (fun x => match x with | .str s => some s | _ => none)
  | _ => []

/-- Extracts a `dict[str, list[str]]` value (exact on well-typed values). -/
def asDictLS : J → List (String × List String)
  | .dict d => d.map (fun p => (p.1, asStrList p.2))
  | _ => []

/-- Embeds `_expect_dict_of_list_str`: one message when the value is not a
dict, one (single, the loop breaks) when some item is not `str -> list[str]`. -/
def dictCheckErrors (key : String) : J → List String
  | .dict d =>
    if d.all (fun p => isListOfStr p.2) then []
    else [s!"Key \x27{key}\x27 must map str -> list[str]."]
  | _ => [s!"Key \x27{key}\x27 must be a dict."]

/-- Inner desk loop of the `Desks_Z` referential check, threading the
`seen_desks` set. -/
def deskListErrors (desks seen : List String) (z : String) : List String → List String
  | [] => []
  | d :: ds =>
    (if d ∈ desks then []
      else [s!"Desk \x27{d}\x27 in Desks_Z[{z}] not declared in Desks."])
      ++ (if d ∈ seen then [s!"Desk \x27{d}\x27 appears in multiple zones."] else [])
      ++ deskListErrors desks (seen ++ [d]) z ds

/-- Embeds the `Desks_Z` referential loop of `validate_instance_dict`. -/
def desksZErrors (zones desks seen : List String) :
    List (String × List String) → List String
  | [] => []
  | (z, ds) :: rest =>
    (if z ∈ zones then []
      else [s!"Zone \x27{z}\x27 in Desks_Z not declared in Zones."])
      ++ deskListErrors desks seen z ds
      ++ desksZErrors zones desks (seen ++ ds) rest

/-- Embeds the `Desks_E` referential loop. -/
def desksEErrors (employees desks : List String) :
    List (String × List String) → List String
  | [] => []
  | (e, ds) :: rest =>
    (if e ∈ employees then []
      else [s!"Employee \x27{e}\x27 in Desks_E not declared in Employees."])
      ++ ds.filterMap (fun d =>
        if d ∈ desks then none
        else some s!"Desk \x27{d}\x27 in Desks_E[{e}] not declared in Desks.")
      ++ desksEErrors employees desks rest

/-- Inner employee loop of the `Employees_G` referential check, threading the
`seen_emp_in_groups` set. -/
def empGListErrors (employees seen : List String) (g : String) :
    List String → List String
  | [] => []
  | e :: es =>
    (if e ∈ employees then []
      else [s!"Employee \x27{e}\x27 in Employees_G[{g}] not declared in Employees."])
      ++ (if e ∈ seen then [s!"Employee \x27{e}\x27 appears in multiple groups."] else [])
      ++ empGListErrors employees (seen ++ [e]) g es

/-- Embeds the `Employees_G` referential loop. -/
def employeesGErrors (groups employees seen : List String) :
    List (String × List String) → List String
  | [] => []
  | (g, es) :: rest =>
    (if g ∈ groups then []
      else [s!"Group \x27{g}\x27 in Employees_G not declared in Groups."])
      ++ empGListErrors employees seen g es
      ++ employeesGErrors groups employees (seen ++ es) rest

/-- Embeds the `Days_E` referential loop. -/
def daysEErrors (employees days : List String) :
    List (String × List String) → List String
  | [] => []
  | (e, ds) :: rest =>
    (if e ∈ employees then []
      else [s!"Employee \x27{e}\x27 in Days_E not declared in Employees."])
      ++ ds.filterMap (fun d =>
        if d ∈ days then none
        else some s!"Day \x27{d}\x27 in Days_E[{e}] not declared in Days.")
      ++ daysEErrors employees days rest

/-- The referential phase of `validate_instance_dict`, reached only when
every type check passed (so the typed extraction is exact). -/
def referentialErrors (data : List (String × J)) : List String :=
  desksZErrors (asStrList (fetchJ data "Zones")) (asStrList (fetchJ data "Desks")) []
      (asDictLS (fetchJ data "Desks_Z"))
    ++ desksEErrors (asStrList (fetchJ data "Employees")) (asStrList (fetchJ data "Desks"))
      (asDictLS (fetchJ data "Desks_E"))
    ++ employeesGErrors (asStrList (fetchJ data "Groups")) (asStrList (fetchJ data "Employees")) []
      (asDictLS (fetchJ data "Employees_G"))
    ++ daysEErrors (asStrList (fetchJ data "Employees")) (asStrList (fetchJ data "Days"))
      (asDictLS (fetchJ data "Days_E"))

/-- Embeds `validate_instance_dict`: missing keys short-circuit; type, then
uniqueness, then dict-shape checks accumulate; the uniqueness loop can raise
`TypeError` (the `.error` outcome); the referential phase runs only when the
earlier phases produced no error. -/
def validate_instance_dict (data : List (String × J)) : Except String (List String) :=
  let missing := REQUIRED_KEYS.filterMap (fun k =>
    if (alookup data k).isSome then none else some s!"Missing key: {k}")
  if missing ≠ [] then .ok missing
  else
    let keys5 : List String := ["Employees", "Desks", "Days", "Groups", "Zones"]
    let typeErrs := keys5.filterMap (fun k =>
      if isListOfStr (fetchJ data k) then none
      else some s!"Key \x27{k}\x27 must be a list[str].")
    match mapMo (fun k => pyUnique (fetchJ data k)) keys5 with
    | none => .error "TypeError"
    | some uniqs =>
      let uniqErrs := (keys5.zip uniqs).filterMap (fun ku =>
        if ku.2 then none else some s!"Values under \x27{ku.1}\x27 must be unique.")
      let dictErrs := (["Desks_Z", "Desks_E", "Employees_G", "Days_E"].map
        (fun k => dictCheckErrors k (fetchJ data k))).flatten
      let errs2 := typeErrs ++ uniqErrs ++ dictErrs
      if errs2 ≠ [] then .ok errs2
      else .ok (referentialErrors data)

/-- Embeds the `ProblemInstance(...)` construction of `load_instance`
(`list(data.get(key, []))` / `dict(data.get(key, {}))`). -/
def buildInstance (data : List (String × J)) : ProblemInstance :=
  { employees := asStrList (fetchJ data "Employees")
    desks := asStrList (fetchJ data "Desks")
    days := asStrList (fetchJ data "Days")
    groups := asStrList (fetchJ data "Groups")
    zones := asStrList (fetchJ data "Zones")
    desks_by_zone := asDictLS (fetchJ data "Desks_Z")
    desks_by_employee := asDictLS (fetchJ data "Desks_E")
    employees_by_group := asDictLS (fetchJ data "Employees_G")
    days_by_employee := asDictLS (fetchJ data "Days_E") }

/-- Embeds `load_instance`: validation errors propagate (a `TypeError` from
validation escapes unchanged); in strict mode a non-empty error list raises
`ValueError` with the full joined message list; otherwise the instance is
built best-effort and returned with its reverse indices available. -/
def load_instance (data : List (String × J)) (strict : Bool) :
    Except String ProblemInstance :=
  match validate_instance_dict data with
  | .error e => .error e
  | .ok errs =>
    if errs ≠ [] ∧ strict = true then
      .error ("Invalid instance:\n- " ++ String.intercalate "\n- " errs)
    else .ok (buildInstance data)

/-- Embeds `build_reverse_indices`' `zone_of_desk` dict: the nested loop
`for z, ds in desks_by_zone.items(): for d in ds: zone_of_desk[d] = z`. -/
def zone_of_desk (inst : ProblemInstance) : String → Option String :=
  dictFold (inst.desks_by_zone.flatMap (fun p => p.2.map (fun d => (d, p.1))))
    (fun _ => none)

/-- Embeds `build_reverse_indices`' `group_of_employee` dict. -/
def group_of_employee (inst : ProblemInstance) : String → Option String :=
  dictFold (inst.employees_by_group.flatMap (fun p => p.2.map (fun e => (e, p.1))))
    (fun _ => none)

/-! ### C5 -/

/-- Concrete input for C5: desk `D1` listed under both `Z1` and `Z2`. -/
def dataC5 : List (String × J) :=
  [("Employees", .list []), ("Desks", .list [.str "D1"]), ("Days", .list []),
   ("Groups", .list []), ("Zones", .list [.str "Z1", .str "Z2"]),
   ("Desks_Z", .dict [("Z1", .list [.str "D1"]), ("Z2", .list [.str "D1"])]),
   ("Desks_E", .dict []), ("Employees_G", .dict []), ("Days_E", .dict [])]

/-- C5: whenever validation returns a non-empty error list, strict loading
raises a `ValueError` whose message joins the full ordered list (never just
the first) and never yields an Instance Model; in particular the double-zone
desk input yields a non-empty list containing the message naming desk `D1`,
and strict loading of it cannot return an instance. -/
theorem C5_strict_load_raises :
    (∀ (data : List (String × J)) (errs : List String),
        validate_instance_dict data = .ok errs → errs ≠ [] →
        load_instance data true
          = .error ("Invalid instance:\n- " ++ String.intercalate "\n- " errs))
      ∧ validate_instance_dict dataC5
          = .ok ["Desk \x27D1\x27 appears in multiple zones."]
      ∧ (∀ inst, load_instance dataC5 true ≠ .ok inst) := by
  refine ⟨?_, rfl, ?_⟩
  · intro data errs hv hne
    simp only [load_instance, hv]
    rw [if_pos (by simp [hne])]
  · intro inst h
    have hl : load_instance dataC5 true
        = .error ("Invalid instance:\n- Desk \x27D1\x27 appears in multiple zones.") := rfl
    rw [hl] at h
    cases h

/-- Witness for C5 at the double-zone input: the theorem's universal part,
applied there, computes the raised message from the full error list. -/
theorem C5_strict_load_raises_witness :
    load_instance dataC5 true
      = .error ("Invalid instance:\n- "
          ++ String.intercalate "\n- " ["Desk \x27D1\x27 appears in multiple zones."]) :=
  C5_strict_load_raises.1 dataC5 ["Desk \x27D1\x27 appears in multiple zones."]
    rfl (by decide)

/-! ### C6 -/

/-- Failing input for C6: all nine keys present, but `Employees` holds a
number, which the uniqueness check cannot `len()`/`set()`. -/
def dataC6 : List (String × J) :=
  [("Employees", .num 5), ("Desks", .list []), ("Days", .list []),
   ("Groups", .list []), ("Zones", .list []), ("Desks_Z", .dict []),
   ("Desks_E", .dict []), ("Employees_G", .dict []), ("Days_E", .dict [])]

/-- C6 (code bug): on an input with all nine keys present whose `Employees`
value is a number, `validate_instance_dict` does not return the accumulated
error list (which would contain the recorded type error for `Employees`): the
`_unique` pass calls `len(5)` and a `TypeError` escapes instead. -/
theorem C6_validator_typeerror :
    validate_instance_dict dataC6 = .error "TypeError" := rfl

/-! ### C7 -/

theorem validate_ok_nil_ref (data : List (String × J))
    (h : validate_instance_dict data = .ok []) : referentialErrors data = [] := by
  simp only [validate_instance_dict] at h
  split at h
  · next hcond => exact absurd (Except.ok.inj h) hcond
  · split at h
    · cases h
    · split at h
      · next hcond2 => exact absurd (Except.ok.inj h) hcond2
      · exact Except.ok.inj h

theorem deskList_nil (desks : List String) (z : String) :
    ∀ (ds seen : List String), deskListErrors desks seen z ds = [] →
      ds.Nodup ∧ ∀ x ∈ ds, x ∉ seen := by
  intro ds
  induction ds with
  | nil => exact fun seen _ => ⟨List.nodup_nil, by simp⟩
  | cons d ds ih =>
    intro seen h
    rw [deskListErrors] at h
    rcases List.append_eq_nil.mp h with ⟨h12, h3⟩
    rcases List.append_eq_nil.mp h12 with ⟨_, h2⟩
    have hdseen : d ∉ seen := by
      intro hd
      rw [if_pos hd] at h2
      cases h2
    obtain ⟨hnd, hns⟩ := ih (seen ++ [d]) h3
    refine ⟨List.nodup_cons.mpr ⟨?_, hnd⟩, ?_⟩
    · intro hdin
      exact (hns d hdin) (by simp)
    · intro x hx
      rcases List.mem_cons.mp hx with rfl | hx2
      · exact hdseen
      · intro hxseen
        exact (hns x hx2) (by simp [hxseen])

theorem desksZ_nil (zones desks : List String) :
    ∀ (dz : List (String × List String)) (seen : List String),
      desksZErrors zones desks seen dz = [] →
      (dz.flatMap Prod.snd).Nodup ∧ ∀ x ∈ dz.flatMap Prod.snd, x ∉ seen := by
  intro dz
  induction dz with
  | nil => exact fun seen _ => ⟨List.nodup_nil, by simp⟩
  | cons p rest ih =>
    intro seen h
    rcases p with ⟨z, ds⟩
    rw [desksZErrors] at h
    rcases List.append_eq_nil.mp h with ⟨h12, h3⟩
    rcases List.append_eq_nil.mp h12 with ⟨_, h2⟩
    obtain ⟨hdnd, hdseen⟩ := deskList_nil desks z ds seen h2
    obtain ⟨hrnd, hrseen⟩ := ih (seen ++ ds) h3
    rw [List.flatMap_cons]
    constructor
    · rw [List.nodup_append]
      refine ⟨hdnd, hrnd, ?_⟩
      intro a ha har
      exact hrseen a har (List.mem_append.mpr (Or.inr ha))
    · intro x hx
      rcases List.mem_append.mp hx with hx1 | hx2
      · exact hdseen x hx1
      · intro hxs
        exact hrseen x hx2 (List.mem_append.mpr (Or.inl hxs))

theorem dictFold_congr_at {α β : Type} [DecidableEq α] (ps : List (α × β))
    (m1 m2 : α → Option β) (x : α) (h : m1 x = m2 x) :
    dictFold ps m1 x = dictFold ps m2 x := by
  induction ps generalizing m1 m2 with
  | nil => exact h
  | cons kv ps ih =>
    show dictFold ps (fun y => if y = kv.1 then some kv.2 else m1 y) x
      = dictFold ps (fun y => if y = kv.1 then some kv.2 else m2 y) x
    apply ih
    by_cases hx : x = kv.1 <;> simp [hx, h]

theorem dictFold_not_mem {α β : Type} [DecidableEq α] (ps : List (α × β))
    (m0 : α → Option β) (x : α) (h : x ∉ ps.map Prod.fst) :
    dictFold ps m0 x = m0 x := by
  induction ps generalizing m0 with
  | nil => rfl
  | cons kv ps ih =>
    have hx : ¬ x = kv.1 := fun he => h (by simp [he])
    have hrest : x ∉ ps.map Prod.fst := fun hm => h (by simp [hm])
    show dictFold ps (fun y => if y = kv.1 then some kv.2 else m0 y) x = m0 x
    rw [ih _ hrest, if_neg hx]

theorem dictFold_nodup_mem {α β : Type} [DecidableEq α] (ps : List (α × β))
    (hnd : (ps.map Prod.fst).Nodup) (x : α) (y : β) :
    dictFold ps (fun _ => none) x = some y ↔ (x, y) ∈ ps := by
  induction ps with
  | nil => simp [dictFold]
  | cons kv ps ih =>
    have hhead : kv.1 ∉ ps.map Prod.fst := (List.nodup_cons.mp (by simpa using hnd)).1
    have htail : (ps.map Prod.fst).Nodup := (List.nodup_cons.mp (by simpa using hnd)).2
    by_cases hx : kv.1 = x
    · subst hx
      have hstep : dictFold (kv :: ps) (fun _ => none) kv.1
          = dictFold ps (fun y2 => if y2 = kv.1 then some kv.2 else none) kv.1 := rfl
      rw [hstep, dictFold_not_mem ps _ kv.1 hhead, if_pos rfl]
      constructor
      · intro hy
        have hy2 : y = kv.2 := (Option.some.inj hy).symm
        subst hy2
        rw [Prod.mk.eta]
        exact List.mem_cons_self kv ps
      · intro hmem
        rcases List.mem_cons.mp hmem with he | ht
        · exact congrArg some (congrArg Prod.snd he).symm
        · exact absurd (List.mem_map.mpr ⟨(kv.1, y), ht, rfl⟩) hhead
    · have hstep : dictFold (kv :: ps) (fun _ => none) x
          = dictFold ps (fun y2 => if y2 = kv.1 then some kv.2 else none) x := rfl
      rw [hstep,
        dictFold_congr_at ps _ (fun _ => none) x (if_neg (fun h2 => hx h2.symm)),
        ih htail]
      constructor
      · exact fun h2 => List.mem_cons_of_mem _ h2
      · intro h2
        rcases List.mem_cons.mp h2 with he | ht
        · exact absurd (congrArg Prod.fst he).symm hx
        · exact ht

theorem zonePairs_keys (dz : List (String × List String)) :
    ((dz.flatMap (fun p => p.2.map (fun d => (d, p.1)))).map Prod.fst)
      = dz.flatMap Prod.snd := by
  induction dz with
  | nil => rfl
  | cons p rest ih =>
    rw [List.flatMap_cons, List.flatMap_cons, List.map_append, ih, List.map_map]
    rw [show (Prod.fst ∘ fun d => (d, p.1)) = fun d : String => d from rfl]
    simp

/-- Round-trip law for the reverse index, for any instance whose zone lists
hold pairwise-distinct desks (what validation certifies). -/
theorem zone_roundtrip_of_nodup (inst : ProblemInstance)
    (hnd : (inst.desks_by_zone.flatMap Prod.snd).Nodup) (d z : String) :
    zone_of_desk inst d = some z ↔ ∃ p ∈ inst.desks_by_zone, p.1 = z ∧ d ∈ p.2 := by
  have hkeys : ((inst.desks_by_zone.flatMap
      (fun p => p.2.map (fun d2 => (d2, p.1)))).map Prod.fst).Nodup := by
    rw [zonePairs_keys]
    exact hnd
  rw [zone_of_desk, dictFold_nodup_mem _ hkeys d z]
  simp only [List.mem_flatMap, List.mem_map]
  constructor
  · rintro ⟨p, hp, d2, hd2, heq⟩
    have hd : d2 = d := congrArg Prod.fst heq
    have hz2 : p.1 = z := congrArg Prod.snd heq
    subst hd
    exact ⟨p, hp, hz2, hd2⟩
  · rintro ⟨p, hp, hz, hd⟩
    exact ⟨p, hp, d, hd, by rw [hz]⟩

/-- C7: for every input that loads successfully in strict mode, the derived
reverse index satisfies `zone_of_desk[d] = z` exactly when `d` appears under
`z` in `desks_by_zone` (validation rules out a desk under two zones, making
the last-write-wins dict construction a faithful inverse). -/
theorem C7_zone_of_desk_roundtrip (data : List (String × J)) (inst : ProblemInstance)
    (h : load_instance data true = .ok inst) (d z : String) :
    zone_of_desk inst d = some z ↔ ∃ p ∈ inst.desks_by_zone, p.1 = z ∧ d ∈ p.2 := by
  have hv : validate_instance_dict data = .ok [] ∧ inst = buildInstance data := by
    cases hvv : validate_instance_dict data with
    | error e =>
      simp only [load_instance, hvv] at h
      exact Except.noConfusion h
    | ok errs =>
      simp only [load_instance, hvv] at h
      split at h
      · exact Except.noConfusion h
      · next hcond =>
        have herrs : errs = [] := by
          by_contra hcon
          exact hcond (by simp [hcon])
        constructor
        · rw [herrs]
        · exact (Except.ok.inj h).symm
  obtain ⟨hval, hinst⟩ := hv
  subst hinst
  have href : referentialErrors data = [] := validate_ok_nil_ref data hval
  have hdz : desksZErrors (asStrList (fetchJ data "Zones"))
      (asStrList (fetchJ data "Desks")) [] (asDictLS (fetchJ data "Desks_Z")) = [] :=
    (List.append_eq_nil.mp
      (List.append_eq_nil.mp (List.append_eq_nil.mp href).1).1).1
  have hnodup : ((asDictLS (fetchJ data "Desks_Z")).flatMap Prod.snd).Nodup :=
    (desksZ_nil _ _ _ [] hdz).1
  exact zone_roundtrip_of_nodup (buildInstance data) hnodup d z

/-- Concrete valid input for the C7 witness: one desk `D1` in zone `Z1`. -/
def dataC7 : List (String × J) :=
  [("Employees", .list []), ("Desks", .list [.str "D1"]), ("Days", .list []),
   ("Groups", .list []), ("Zones", .list [.str "Z1"]),
   ("Desks_Z", .dict [("Z1", .list [.str "D1"])]),
   ("Desks_E", .dict []), ("Employees_G", .dict []), ("Days_E", .dict [])]

/-- Witness for C7: the round-trip equivalence instantiated at the loaded
one-desk instance. -/
theorem C7_zone_of_desk_roundtrip_witness :
    zone_of_desk (buildInstance dataC7) "D1" = some "Z1"
      ↔ ∃ p ∈ (buildInstance dataC7).desks_by_zone, p.1 = "Z1" ∧ "D1" ∈ p.2 :=
  C7_zone_of_desk_roundtrip dataC7 (buildInstance dataC7) rfl "D1" "Z1"

end Entrega
